import Mathlib

/-!
# Verification of `src/quickmapper.py` (bloodhound_quickcheck)

A shallow embedding of the single-file Python program `quickmapper.py`.
The program parses BloodHound JSON exports and extracts three collections:
high-value accounts by category, privileged-user sessions per host, and
unconstrained-delegation principals, merged over all `.json` files of a
directory.

Python values produced by `json.load` are modelled by `JVal` (floats are
omitted: no claim concerns them).  Fallible dynamic operations (`.get` on a
non-dict, iteration over a non-iterable, subscripting, hashing an unhashable
value) are modelled in `Except String`, mirroring the exceptions the Python
interpreter raises; the driver catches them per file exactly as the
`try`/`except` in `main` does.
-/

/-- A Python value as produced by `json.load`: `None`, `bool`, `int`, `str`,
`list`, `dict` (JSON object keys are strings; `json.load` keeps one entry per
key, so object entries are assumed key-distinct). Floats are omitted. -/
inductive JVal where
  | null
  | bool (b : Bool)
  | int (n : Int)
  | str (s : String)
  | list (elems : List JVal)
  | obj (entries : List (String × JVal))

mutual

/-- Structural (decidable) equality on `JVal`. -/
def jvalDecEq : (a b : JVal) → Decidable (a = b)
  | .null, .null => isTrue rfl
  | .bool x, .bool y =>
      if h : x = y then isTrue (by rw [h])
      else isFalse (by intro hh; injection hh with h1; exact h h1)
  | .int x, .int y =>
      if h : x = y then isTrue (by rw [h])
      else isFalse (by intro hh; injection hh with h1; exact h h1)
  | .str x, .str y =>
      if h : x = y then isTrue (by rw [h])
      else isFalse (by intro hh; injection hh with h1; exact h h1)
  | .list as, .list bs =>
      match jvalDecEqList as bs with
      | isTrue h => isTrue (by rw [h])
      | isFalse h => isFalse (by intro hh; injection hh with h1; exact h h1)
  | .obj aes, .obj bes =>
      match jvalDecEqObj aes bes with
      | isTrue h => isTrue (by rw [h])
      | isFalse h => isFalse (by intro hh; injection hh with h1; exact h h1)
  | .null, .bool _ => isFalse (fun h => JVal.noConfusion h)
  | .null, .int _ => isFalse (fun h => JVal.noConfusion h)
  | .null, .str _ => isFalse (fun h => JVal.noConfusion h)
  | .null, .list _ => isFalse (fun h => JVal.noConfusion h)
  | .null, .obj _ => isFalse (fun h => JVal.noConfusion h)
  | .bool _, .null => isFalse (fun h => JVal.noConfusion h)
  | .bool _, .int _ => isFalse (fun h => JVal.noConfusion h)
  | .bool _, .str _ => isFalse (fun h => JVal.noConfusion h)
  | .bool _, .list _ => isFalse (fun h => JVal.noConfusion h)
  | .bool _, .obj _ => isFalse (fun h => JVal.noConfusion h)
  | .int _, .null => isFalse (fun h => JVal.noConfusion h)
  | .int _, .bool _ => isFalse (fun h => JVal.noConfusion h)
  | .int _, .str _ => isFalse (fun h => JVal.noConfusion h)
  | .int _, .list _ => isFalse (fun h => JVal.noConfusion h)
  | .int _, .obj _ => isFalse (fun h => JVal.noConfusion h)
  | .str _, .null => isFalse (fun h => JVal.noConfusion h)
  | .str _, .bool _ => isFalse (fun h => JVal.noConfusion h)
  | .str _, .int _ => isFalse (fun h => JVal.noConfusion h)
  | .str _, .list _ => isFalse (fun h => JVal.noConfusion h)
  | .str _, .obj _ => isFalse (fun h => JVal.noConfusion h)
  | .list _, .null => isFalse (fun h => JVal.noConfusion h)
  | .list _, .bool _ => isFalse (fun h => JVal.noConfusion h)
  | .list _, .int _ => isFalse (fun h => JVal.noConfusion h)
  | .list _, .str _ => isFalse (fun h => JVal.noConfusion h)
  | .list _, .obj _ => isFalse (fun h => JVal.noConfusion h)
  | .obj _, .null => isFalse (fun h => JVal.noConfusion h)
  | .obj _, .bool _ => isFalse (fun h => JVal.noConfusion h)
  | .obj _, .int _ => isFalse (fun h => JVal.noConfusion h)
  | .obj _, .str _ => isFalse (fun h => JVal.noConfusion h)
  | .obj _, .list _ => isFalse (fun h => JVal.noConfusion h)

/-- Decidable equality of `JVal` lists. -/
def jvalDecEqList : (as bs : List JVal) → Decidable (as = bs)
  | [], [] => isTrue rfl
  | [], _ :: _ => isFalse (fun h => List.noConfusion h)
  | _ :: _, [] => isFalse (fun h => List.noConfusion h)
  | a :: as, b :: bs =>
      match jvalDecEq a b, jvalDecEqList as bs with
      | isTrue h1, isTrue h2 => isTrue (by rw [h1, h2])
      | isFalse h1, _ => isFalse (by intro hh; injection hh with hh1 hh2; exact h1 hh1)
      | _, isFalse h2 => isFalse (by intro hh; injection hh with hh1 hh2; exact h2 hh2)

/-- Decidable equality of `JVal` object entry lists. -/
def jvalDecEqObj : (as bs : List (String × JVal)) → Decidable (as = bs)
  | [], [] => isTrue rfl
  | [], _ :: _ => isFalse (fun h => List.noConfusion h)
  | _ :: _, [] => isFalse (fun h => List.noConfusion h)
  | (k, v) :: as, (k2, v2) :: bs =>
      if hk : k = k2 then
        match jvalDecEq v v2, jvalDecEqObj as bs with
        | isTrue h1, isTrue h2 => isTrue (by rw [hk, h1, h2])
        | isFalse h1, _ => isFalse (by
            intro hh; injection hh with hh1 hh2
            injection hh1 with hk1 hv1; exact h1 hv1)
        | _, isFalse h2 => isFalse (by intro hh; injection hh with hh1 hh2; exact h2 hh2)
      else
        isFalse (by
          intro hh; injection hh with hh1 hh2
          injection hh1 with hk1 hv1; exact hk hk1)

end

instance : DecidableEq JVal := jvalDecEq

/-- Python truthiness of a value, as used by `if properties.get(...):`. -/
def truthy : JVal → Bool
  | .null => false
  | .bool b => b
  | .int n => n != 0
  | .str s => s != ""
  | .list elems => !elems.isEmpty
  | .obj entries => !entries.isEmpty

mutual

/-- Python `==` on `JVal`.  `bool` is a subtype of `int` in Python, so
`True == 1` and `False == 0`.  Other cross-type comparisons are `False`,
scalar same-type comparisons are value equality, and lists compare
element-wise with `==` recursively.  (Python compares dicts order-insensitively;
in this program `==` is only applied between a stored value and the integer
literal `1`, and between hashable set/dict-key elements — dicts are
unhashable — so the order-sensitive fallback on `obj` is never reached.) -/
def pyEq : JVal → JVal → Bool
  | .bool x, .int n => (if x then (1 : Int) else 0) == n
  | .int n, .bool x => n == (if x then (1 : Int) else 0)
  | .null, .null => true
  | .bool x, .bool y => x == y
  | .int n, .int m => n == m
  | .str s, .str t => s == t
  | .list as, .list bs => pyEqList as bs
  | .obj aes, .obj bes => pyEqObj aes bes
  | _, _ => false

/-- Element-wise Python `==` on lists. -/
def pyEqList : List JVal → List JVal → Bool
  | [], [] => true
  | a :: as, b :: bs => pyEq a b && pyEqList as bs
  | _, _ => false

/-- Entry-wise comparison of object entry lists (see `pyEq`). -/
def pyEqObj : List (String × JVal) → List (String × JVal) → Bool
  | [], [] => true
  | (k, v) :: as, (k2, v2) :: bs => k == k2 && pyEq v v2 && pyEqObj as bs
  | _, _ => false

end

/-- Whether a value is hashable in Python (lists and dicts are not). -/
def hashable : JVal → Bool
  | .list _ => false
  | .obj _ => false
  | _ => true

/-- Lookup of a key in a JSON object's entry list (Python dict lookup;
keys of parsed objects are distinct, see `JVal.obj`). -/
def objLookup (entries : List (String × JVal)) (key : String) : Option JVal :=
  (entries.find? (fun kv => kv.1 == key)).map (fun kv => kv.2)

/-- Models Python `v.get(key, default)`: dict lookup with default;
`AttributeError` when `v` is not a dict. -/
def pyGetD (v : JVal) (key : String) (dflt : JVal) : Except String JVal :=
  match v with
  | .obj entries => .ok ((objLookup entries key).getD dflt)
  | _ => .error "AttributeError: object has no attribute get"

/-- Models Python `key in v` for a string key: dict key test, substring test
on strings, membership on lists; `TypeError` otherwise. -/
def pyContains (key : String) (v : JVal) : Except String Bool :=
  match v with
  | .obj entries => .ok (entries.any (fun kv => kv.1 == key))
  | .str s => .ok ((s.splitOn key).length > 1)
  | .list elems => .ok (elems.any (fun w => pyEq w (.str key)))
  | _ => .error "TypeError: argument is not a container"

/-- Models Python `v[key]` for a string key: dict subscript, `KeyError` when
absent, `TypeError` when `v` is not a dict. -/
def pySubscript (v : JVal) (key : String) : Except String JVal :=
  match v with
  | .obj entries =>
      match objLookup entries key with
      | some w => .ok w
      | none => .error "KeyError"
  | _ => .error "TypeError: value is not subscriptable"

/-- Models Python iteration `for x in v`: lists yield their elements, strings
their one-character substrings, dicts their keys; other values raise
`TypeError`. -/
def pyIter (v : JVal) : Except String (List JVal) :=
  match v with
  | .list elems => .ok elems
  | .str s => .ok (s.toList.map (fun c => .str (String.singleton c)))
  | .obj entries => .ok (entries.map (fun kv => .str kv.1))
  | _ => .error "TypeError: object is not iterable"

/-!
## Python sets

A Python `set` of hashable values is modelled as a list without
`pyEq`-duplicates, in insertion order (set iteration order is not observable
in any claim).  Equality-of-keys in sets and dicts is `pyEq` together with
equal hashes; on hashable values `hash`-equality is implied by `pyEq`
(e.g. `hash(True) == hash(1)`), so `pyEq` alone decides collisions.
-/

/-- Membership of `v` in the set `s` under Python equality. -/
def pyMem (s : List JVal) (v : JVal) : Bool :=
  s.any (fun w => pyEq w v)

/-- Models `s.add(v)` on a Python set: a no-op when an equal element is present. -/
def pySetAdd (s : List JVal) (v : JVal) : List JVal :=
  if pyMem s v then s else s ++ [v]

/-- Models Python `v in s` for a set `s`: `TypeError` on unhashable `v`. -/
def pyIn (v : JVal) (s : List JVal) : Except String Bool :=
  if hashable v then .ok (pyMem s v) else .error "TypeError: unhashable type"

/-- Models Python `set(xs)` for a list `xs`: `TypeError` if any element is
unhashable. -/
def pySetOf (xs : List JVal) : Except String (List JVal) :=
  xs.foldlM
    (fun s v =>
      if hashable v then .ok (pySetAdd s v)
      else .error "TypeError: unhashable type") []

/-!
## `defaultdict(list)` keyed by strings

`high_value_accounts` / `high_value_targets` is a `defaultdict(list)` whose
keys are the five category strings; modelled as an association list in key
insertion order.
-/

/-- Models `m[key].append(v)` on a `defaultdict(list)`. -/
def dlistAppend (m : List (String × List JVal)) (key : String) (v : JVal) :
    List (String × List JVal) :=
  match m with
  | [] => [(key, [v])]
  | (k, xs) :: rest =>
      if k == key then (k, xs ++ [v]) :: rest
      else (k, xs) :: dlistAppend rest key v

/-- Models `m[key].extend(vs)` on a `defaultdict(list)`. -/
def dlistExtend (m : List (String × List JVal)) (key : String) (vs : List JVal) :
    List (String × List JVal) :=
  match m with
  | [] => [(key, vs)]
  | (k, xs) :: rest =>
      if k == key then (k, xs ++ vs) :: rest
      else (k, xs) :: dlistExtend rest key vs

/-- Models `m[key]` on a `defaultdict(list)`: returns the value and the possibly
extended dict (`__getitem__` inserts an empty list for a missing key). -/
def dlistGet (m : List (String × List JVal)) (key : String) :
    List JVal × List (String × List JVal) :=
  match m with
  | [] => ([], [(key, [])])
  | (k, xs) :: rest =>
      if k == key then (xs, (k, xs) :: rest)
      else
        let r := dlistGet rest key
        (r.1, (k, xs) :: r.2)

/-- Pure lookup in the dict model (for specification statements only):
the list stored under `key`, `[]` when absent. -/
def dlistLookup : List (String × List JVal) → String → List JVal
  | [], _ => []
  | (k, xs) :: rest, key => if k == key then xs else dlistLookup rest key

/-!
## `defaultdict(set)` keyed by arbitrary hashable values

`session_data` / `all_sessions` maps host display names (arbitrary parsed
values) to Python sets of usernames.  Keys are compared with `pyEq`.
-/

/-- Models `m[host].add(u)` once `host` is known hashable. -/
def dsetAddAux (m : List (JVal × List JVal)) (host u : JVal) :
    List (JVal × List JVal) :=
  match m with
  | [] => [(host, pySetAdd [] u)]
  | (k, s) :: rest =>
      if pyEq k host then (k, pySetAdd s u) :: rest
      else (k, s) :: dsetAddAux rest host u

/-- Models `session_data[host].add(u)`: Python hashes the key on `__getitem__`, so an
unhashable host raises `TypeError`.  (`u` was already hashed by the
`username in high_priv_accounts` test before any `add` in this program.) -/
def dsetAdd (m : List (JVal × List JVal)) (host u : JVal) :
    Except String (List (JVal × List JVal)) :=
  if hashable host then .ok (dsetAddAux m host u)
  else .error "TypeError: unhashable type"

/-- Models `all_sessions[key].update(us)` on a `defaultdict(set)`; the keys and
elements come from an extractor-produced session map and are hashable. -/
def dsetUpdate (m : List (JVal × List JVal)) (host : JVal) (us : List JVal) :
    List (JVal × List JVal) :=
  match m with
  | [] => [(host, us.foldl pySetAdd [])]
  | (k, s) :: rest =>
      if pyEq k host then (k, us.foldl pySetAdd s) :: rest
      else (k, s) :: dsetUpdate rest host us

/-- Pure lookup in the session-map model (for specification statements only):
the user set stored under a key equal to `host`, `[]` when absent. -/
def dsetLookup : List (JVal × List JVal) → JVal → List JVal
  | [], _ => []
  | (k, s) :: rest, host => if pyEq k host then s else dsetLookup rest host

/-!
## The three extractors (`quickmapper.py` lines 10–73)
-/

/-- Body of the `for node in nodes` loop of `extract_high_value_targets`
(lines 16–38): classify one node into zero or more of the five categories. -/
def hvNode (acc : List (String × List JVal)) (node : JVal) :
    Except String (List (String × List JVal)) :=
  (pyGetD node "properties" (.obj [])).bind fun properties =>
  (pyGetD properties "name" (.str "Unknown")).bind fun name =>
  (pyGetD properties "highvalue" (.bool false)).bind fun highvalue =>
  let acc := if truthy highvalue then dlistAppend acc "High Value" name else acc
  (pyContains "admincount" properties).bind fun hasAdmincount =>
  (if hasAdmincount then
    (pySubscript properties "admincount").bind fun admincount =>
      .ok (if pyEq admincount (.int 1) then
             dlistAppend acc "Domain Admins / Enterprise Admins" name
           else acc)
   else .ok acc).bind fun acc =>
  (pyGetD properties "hasspn" (.bool false)).bind fun hasspn =>
  let acc := if truthy hasspn then dlistAppend acc "Kerberoastable Accounts" name else acc
  (pyGetD properties "unconstraineddelegation" (.bool false)).bind fun ud =>
  let acc := if truthy ud then dlistAppend acc "Unconstrained Delegation" name else acc
  (pyGetD properties "allowedtodelegate" (.bool false)).bind fun atd =>
  .ok (if truthy atd then dlistAppend acc "Allowed to Delegate" name else acc)

/-- Embeds `extract_high_value_targets` (lines 10–40). -/
def extract_high_value_targets (bloodhound_json : JVal) :
    Except String (List (String × List JVal)) :=
  (pyGetD bloodhound_json "nodes" (.list [])).bind fun nodes =>
  (pyIter nodes).bind fun nodeList =>
  nodeList.foldlM hvNode []

/-- Body of the inner `for session in sessions` loop of `extract_sessions`
(lines 53–56). -/
def sessSession (high_priv_accounts : List JVal) (host : JVal)
    (sd : List (JVal × List JVal)) (session : JVal) :
    Except String (List (JVal × List JVal)) :=
  (pyGetD session "user" (.obj [])).bind fun user =>
  (pyGetD user "name" (.str "")).bind fun username =>
  (pyIn username high_priv_accounts).bind fun isPriv =>
  if isPriv then dsetAdd sd host username else .ok sd

/-- Body of the `for node in nodes` loop of `extract_sessions`
(lines 48–56). -/
def sessNode (high_priv_accounts : List JVal)
    (session_data : List (JVal × List JVal)) (node : JVal) :
    Except String (List (JVal × List JVal)) :=
  (pyGetD node "properties" (.obj [])).bind fun properties =>
  (pyGetD properties "name" (.str "Unknown")).bind fun host =>
  (pyGetD node "sessions" (.list [])).bind fun sessions =>
  (pyIter sessions).bind fun sessionList =>
  sessionList.foldlM (sessSession high_priv_accounts host) session_data

/-- Embeds `extract_sessions` (lines 42–58). -/
def extract_sessions (bloodhound_json : JVal) (high_priv_accounts : List JVal) :
    Except String (List (JVal × List JVal)) :=
  (pyGetD bloodhound_json "nodes" (.list [])).bind fun nodes =>
  (pyIter nodes).bind fun nodeList =>
  nodeList.foldlM (sessNode high_priv_accounts) []

/-- Body of the `for node in nodes` loop of
`extract_unconstrained_delegation_principals` (lines 66–71). -/
def udNode (acc : List JVal) (node : JVal) : Except String (List JVal) :=
  (pyGetD node "properties" (.obj [])).bind fun properties =>
  (pyGetD properties "name" (.str "Unknown")).bind fun name =>
  (pyGetD properties "unconstraineddelegation" (.bool false)).bind fun ud =>
  .ok (if truthy ud then acc ++ [name] else acc)

/-- Embeds `extract_unconstrained_delegation_principals` (lines 60–73). -/
def extract_unconstrained_delegation_principals (bloodhound_json : JVal) :
    Except String (List JVal) :=
  (pyGetD bloodhound_json "nodes" (.list [])).bind fun nodes =>
  (pyIter nodes).bind fun nodeList =>
  nodeList.foldlM udNode []

/-!
## The driver (`main`, lines 99–136)

A directory is modelled as a list of `FileEntry`: a file name together with
the outcome of `load_json` on that file (`.error` = the file could not be
read or parsed).  The report renderer `print_results` is out of core scope;
`MainResult.report` carries the three collections handed to it, plus the
per-file errors printed by the `except` branch.
-/

instance {ε α : Type} [DecidableEq ε] [DecidableEq α] : DecidableEq (Except ε α) :=
  fun a b =>
  match a, b with
  | .error x, .error y =>
      if h : x = y then isTrue (by rw [h])
      else isFalse (by intro hh; injection hh with h1; exact h h1)
  | .ok x, .ok y =>
      if h : x = y then isTrue (by rw [h])
      else isFalse (by intro hh; injection hh with h1; exact h h1)
  | .error _, .ok _ => isFalse (fun h => Except.noConfusion h)
  | .ok _, .error _ => isFalse (fun h => Except.noConfusion h)

/-- Models Python `filename.endswith(".json")` (stated on the character list;
`String.endsWith` itself is equivalent but does not evaluate by kernel
reduction). -/
def strEndsWith (s suffix : String) : Bool :=
  decide (suffix.toList.length ≤ s.toList.length)
    && decide (s.toList.drop (s.toList.length - suffix.toList.length) = suffix.toList)

/-- A directory entry: file name and the outcome of `load_json` on it. -/
structure FileEntry where
  fname : String
  content : Except String JVal
  deriving DecidableEq

/-- The three running collections of `main` plus the reported per-file
errors (filename, message). -/
structure RunState where
  high_value_targets : List (String × List JVal)
  all_sessions : List (JVal × List JVal)
  unconstrained_delegation_targets : List JVal
  errors : List (String × String)
  deriving DecidableEq

/-- One iteration of the file loop of `main` (lines 110–134): the `try`
block's mutations persist up to the point where an exception is raised;
the `except` branch records the error and continues. -/
def processFile (st : RunState) (e : FileEntry) : RunState :=
  match e.content with
  | .error msg => { st with errors := st.errors ++ [(e.fname, msg)] }
  | .ok bloodhound_data =>
    match extract_high_value_targets bloodhound_data with
    | .error msg => { st with errors := st.errors ++ [(e.fname, msg)] }
    | .ok extracted_targets =>
      let hv1 := extracted_targets.foldl
        (fun acc kv => dlistExtend acc kv.1 kv.2) st.high_value_targets
      let r1 := dlistGet hv1 "Domain Admins / Enterprise Admins"
      let r2 := dlistGet r1.2 "High Value"
      let hv3 := r2.2
      match pySetOf (r1.1 ++ r2.1) with
      | .error msg =>
          { st with high_value_targets := hv3,
                    errors := st.errors ++ [(e.fname, msg)] }
      | .ok high_priv_accounts =>
        match extract_sessions bloodhound_data high_priv_accounts with
        | .error msg =>
            { st with high_value_targets := hv3,
                      errors := st.errors ++ [(e.fname, msg)] }
        | .ok extracted_sessions =>
          let sess1 := extracted_sessions.foldl
            (fun acc kv => dsetUpdate acc kv.1 kv.2) st.all_sessions
          match extract_unconstrained_delegation_principals bloodhound_data with
          | .error msg =>
              { st with high_value_targets := hv3, all_sessions := sess1,
                        errors := st.errors ++ [(e.fname, msg)] }
          | .ok delegation_targets =>
              { st with high_value_targets := hv3, all_sessions := sess1,
                        unconstrained_delegation_targets :=
                          st.unconstrained_delegation_targets ++ delegation_targets }

/-- The empty running state at the start of `main` (lines 106–108). -/
def initState : RunState := ⟨[], [], [], []⟩

/-- The file loop of `main`: only names ending in `".json"` are processed,
in directory-listing order. -/
def runFiles (files : List FileEntry) : RunState :=
  (files.filter (fun e => strEndsWith e.fname ".json")).foldl processFile initState

/-- The observable outcome of `main`: either the invalid-directory message
with no report, or the report over the accumulated collections. -/
inductive MainResult where
  | invalidDirectory
  | report (high_value_targets : List (String × List JVal))
      (all_sessions : List (JVal × List JVal))
      (unconstrained_delegation_targets : List JVal)
      (errors : List (String × String))
  deriving DecidableEq

namespace quickmapper

/-- Embeds `main` (lines 99–136); `isDirectory` is the outcome of
`os.path.isdir` on the entered path. -/
def main (isDirectory : Bool) (files : List FileEntry) : MainResult :=
  if isDirectory then
    let st := runFiles files
    .report st.high_value_targets st.all_sessions
      st.unconstrained_delegation_targets st.errors
  else .invalidDirectory

end quickmapper

/-!
## Specification-layer definitions

Constructors for well-formed documents (per the data model: a `nodes` list of
records, each with a `properties` mapping and possibly further entries such
as `sessions`), accessors used to state the claims, and the concrete example
documents the claims are settled on.
-/

/-- A well-formed node: a `properties` mapping given by `props` followed by
arbitrary further entries `rest` (e.g. a `sessions` entry). -/
def mkNode (props rest : List (String × JVal)) : JVal :=
  .obj (("properties", .obj props) :: rest)

/-- A well-formed document whose nodes are given by `(props, rest)` pairs. -/
def mkDoc (ns : List (List (String × JVal) × List (String × JVal))) : JVal :=
  .obj [("nodes", .list (ns.map fun n => mkNode n.1 n.2))]

/-- The display name of a node with properties `props`:
`properties.get("name", "Unknown")`. -/
def displayName (props : List (String × JVal)) : JVal :=
  (objLookup props "name").getD (.str "Unknown")

/-- The flag value of a node with properties `props`:
`properties.get(flag, False)`. -/
def flagValue (props : List (String × JVal)) (flag : String) : JVal :=
  (objLookup props flag).getD (.bool false)

/-- Whether a node's properties put it under "Domain Admins / Enterprise
Admins": an `admincount` entry whose value is the integer `1` or the boolean
`True` (the two values Python's `== 1` accepts). -/
def admincountHit (props : List (String × JVal)) : Bool :=
  match objLookup props "admincount" with
  | some v => decide (v = JVal.int 1) || decide (v = JVal.bool true)
  | none => false

/-- The pure effect of `hvNode` on a well-formed node (proved equal to it in
`hvNode_mkNode`): the five category appends of lines 21–38. -/
def hvNodeModel (acc : List (String × List JVal)) (props : List (String × JVal)) :
    List (String × List JVal) :=
  let name := displayName props
  let acc := if truthy (flagValue props "highvalue")
             then dlistAppend acc "High Value" name else acc
  let acc := match objLookup props "admincount" with
    | some v => if pyEq v (.int 1)
                then dlistAppend acc "Domain Admins / Enterprise Admins" name else acc
    | none => acc
  let acc := if truthy (flagValue props "hasspn")
             then dlistAppend acc "Kerberoastable Accounts" name else acc
  let acc := if truthy (flagValue props "unconstraineddelegation")
             then dlistAppend acc "Unconstrained Delegation" name else acc
  if truthy (flagValue props "allowedtodelegate")
  then dlistAppend acc "Allowed to Delegate" name else acc

/-- The "High Value" list a single file contributes to the running totals:
empty when the file fails to parse or its high-value extraction fails. -/
def fileHVContribution (e : FileEntry) : List JVal :=
  match e.content with
  | .error _ => []
  | .ok doc =>
    match extract_high_value_targets doc with
    | .error _ => []
    | .ok m => dlistLookup m "High Value"

/-- The document of the spec's worked example (§8): node A is high-value,
node B has `admincount` 1 and `unconstraineddelegation` true and carries one
session of user A. -/
def exampleDoc : JVal := mkDoc [
  ([("name", .str "A"), ("highvalue", .bool true)], []),
  ([("name", .str "B"), ("admincount", .int 1), ("unconstraineddelegation", .bool true)],
   [("sessions", .list [.obj [("user", .obj [("name", .str "A")])]])])]

/-- A document whose only node stores `admincount: true` (a JSON boolean). -/
def docAdmincountTrue : JVal := mkDoc [([("name", .str "T"), ("admincount", .bool true)], [])]

/-- A document whose only node has one session with no `user` record, so the
username is read as the empty string. -/
def docEmptyUser : JVal := mkDoc [([("name", .str "H")], [("sessions", .list [.obj []])])]

/-- A document whose only node is high-value but whose `sessions` entry is the
integer 5, so session extraction raises `TypeError` after the high-value
merge already happened. -/
def docSessionsInt : JVal := mkDoc [([("name", .str "X"), ("highvalue", .bool true)],
  [("sessions", .int 5)])]

/-- A document whose only node stores non-boolean truthy values in all four
flags: the string "false" and the integer 2. -/
def docTruthyFlags : JVal := mkDoc [([("name", .str "N"), ("highvalue", .str "false"),
  ("hasspn", .int 2), ("unconstraineddelegation", .str "false"),
  ("allowedtodelegate", .int 2)], [])]

/-- A document whose only node carries the same user's session twice. -/
def docDoubleSession : JVal := mkDoc [([("name", .str "H1")],
  [("sessions", .list [.obj [("user", .obj [("name", .str "alice")])],
                       .obj [("user", .obj [("name", .str "alice")])]])])]

/-- A document whose only node H carries one session of user "A" and flags
nothing: its session is reportable only while "A" is already privileged. -/
def docSessionOnly : JVal := mkDoc [([("name", .str "H")],
  [("sessions", .list [.obj [("user", .obj [("name", .str "A")])]])])]

/-- A document whose only node is the high-value account "A". -/
def docHighValueA : JVal := mkDoc [([("name", .str "A"), ("highvalue", .bool true)], [])]

/-!
## Helper lemmas: `Except`, `foldlM`, Python sets
-/

theorem exceptBind_ok {α β : Type} (a : α) (f : α → Except String β) :
    (Except.ok a).bind f = f a := rfl

theorem exceptBind_error {α β : Type} (msg : String) (f : α → Except String β) :
    (Except.error msg).bind f = .error msg := rfl

theorem exceptMonadBind_ok {α β : Type} (a : α) (f : α → Except String β) :
    ((Except.ok a : Except String α) >>= f) = f a := rfl

theorem exceptMonadBind_error {α β : Type} (msg : String) (f : α → Except String β) :
    ((Except.error msg : Except String α) >>= f) = .error msg := rfl

theorem exceptPure {α : Type} (a : α) : (pure a : Except String α) = .ok a := rfl

/-- An invariant preserved by every successful step of a `foldlM` over
`Except` is preserved by the whole fold. -/
theorem exFoldlM_ok_invariant {α β : Type} (P : β → Prop) (f : β → α → Except String β) :
    ∀ (l : List α) (acc : β), P acc →
      (∀ b a b', a ∈ l → P b → f b a = .ok b' → P b') →
      ∀ r, List.foldlM f acc l = .ok r → P r := by
  intro l
  induction l with
  | nil =>
    intro acc hP _ r hr
    rw [List.foldlM_nil] at hr
    rw [exceptPure] at hr
    injection hr with h1
    rw [← h1]
    exact hP
  | cons x xs ih =>
    intro acc hP hstep r hr
    rw [List.foldlM_cons] at hr
    cases hfx : f acc x with
    | error m => rw [hfx, exceptMonadBind_error] at hr; exact absurd hr (by simp)
    | ok acc2 =>
      rw [hfx, exceptMonadBind_ok] at hr
      exact ih acc2 (hstep acc x acc2 (List.mem_cons_self x xs) hP hfx)
        (fun b a b' ha => hstep b a b' (List.mem_cons_of_mem x ha)) r hr

/-- A `foldlM` over `Except` whose steps all succeed is the `.ok` of the
corresponding pure fold. -/
theorem exFoldlM_eq_foldl {α β : Type} (f : β → α → Except String β) (g : β → α → β) :
    ∀ (l : List α) (acc : β), (∀ b a, a ∈ l → f b a = .ok (g b a)) →
      List.foldlM f acc l = .ok (List.foldl g acc l) := by
  intro l
  induction l with
  | nil => intro acc _; rw [List.foldlM_nil, List.foldl_nil]; rfl
  | cons x xs ih =>
    intro acc h
    rw [List.foldlM_cons, h acc x (List.mem_cons_self x xs), exceptMonadBind_ok,
      List.foldl_cons]
    exact ih (g acc x) (fun b a ha => h b a (List.mem_cons_of_mem x ha))

theorem pyMem_true_iff (s : List JVal) (u : JVal) :
    pyMem s u = true ↔ ∃ w ∈ s, pyEq w u = true := by
  simp [pyMem, List.any_eq_true]

theorem pyMem_append (s t : List JVal) (u : JVal) :
    pyMem (s ++ t) u = (pyMem s u || pyMem t u) := by
  simp [pyMem, List.any_append]

theorem mem_pySetAdd {w : JVal} {s : List JVal} {v : JVal}
    (h : w ∈ pySetAdd s v) : w ∈ s ∨ w = v := by
  unfold pySetAdd at h
  by_cases hm : pyMem s v = true
  · rw [if_pos hm] at h; exact Or.inl h
  · rw [if_neg hm] at h
    rcases List.mem_append.mp h with h1 | h1
    · exact Or.inl h1
    · exact Or.inr (List.mem_singleton.mp h1)

theorem mem_foldl_pySetAdd {w : JVal} :
    ∀ (us : List JVal) (s : List JVal), w ∈ List.foldl pySetAdd s us → w ∈ s ∨ w ∈ us := by
  intro us
  induction us with
  | nil => intro s h; exact Or.inl h
  | cons u us ih =>
    intro s h
    rw [List.foldl_cons] at h
    rcases ih (pySetAdd s u) h with h1 | h1
    · rcases mem_pySetAdd h1 with h2 | h2
      · exact Or.inl h2
      · exact Or.inr (h2 ▸ List.mem_cons_self u us)
    · exact Or.inr (List.mem_cons_of_mem u h1)

theorem pairwise_pySetAdd {s : List JVal} {v : JVal}
    (h : List.Pairwise (fun a b => pyEq a b = false) s) :
    List.Pairwise (fun a b => pyEq a b = false) (pySetAdd s v) := by
  unfold pySetAdd
  by_cases hm : pyMem s v = true
  · rw [if_pos hm]; exact h
  · rw [if_neg hm]
    rw [List.pairwise_append]
    refine ⟨h, List.pairwise_singleton _ _, ?_⟩
    intro a ha b hb
    rw [List.mem_singleton] at hb
    rw [hb]
    cases hc : pyEq a v with
    | false => rfl
    | true => exact absurd ((pyMem_true_iff s v).mpr ⟨a, ha, hc⟩) hm

/-- Every element of `set(xs)` is an element of `xs`. -/
theorem pySetOf_mem {xs s : List JVal} (h : pySetOf xs = .ok s) :
    ∀ w ∈ s, w ∈ xs := by
  unfold pySetOf at h
  refine exFoldlM_ok_invariant (fun b => ∀ w ∈ b, w ∈ xs) _ xs [] ?_ ?_ s h
  · intro w hw; cases hw
  · intro b a b' ha hb hstep
    by_cases hh : hashable a = true
    · rw [if_pos hh] at hstep
      injection hstep with h1
      intro w hw
      rw [← h1] at hw
      rcases mem_pySetAdd hw with h2 | h2
      · exact hb w h2
      · exact h2 ▸ ha
    · rw [if_neg hh] at hstep; cases hstep

/-- Membership under Python equality survives `set(...)`. -/
theorem pySetOf_pyMem {xs s : List JVal} (h : pySetOf xs = .ok s) (u : JVal)
    (hm : pyMem s u = true) : pyMem xs u = true := by
  rcases (pyMem_true_iff s u).mp hm with ⟨w, hw, he⟩
  exact (pyMem_true_iff xs u).mpr ⟨w, pySetOf_mem h w hw, he⟩

/-!
## Helper lemmas: the `defaultdict(list)` model
-/

theorem dlistAppend_lookup_self (m : List (String × List JVal)) (k : String) (v : JVal) :
    dlistLookup (dlistAppend m k v) k = dlistLookup m k ++ [v] := by
  induction m with
  | nil => simp [dlistAppend, dlistLookup]
  | cons kv rest ih =>
    obtain ⟨k2, xs⟩ := kv
    by_cases h : (k2 == k) = true
    · simp [dlistAppend, dlistLookup, h]
    · simp [dlistAppend, dlistLookup, h, ih]

theorem dlistAppend_lookup_ne (m : List (String × List JVal)) (k : String) (v : JVal)
    (c : String) (h : c ≠ k) : dlistLookup (dlistAppend m k v) c = dlistLookup m c := by
  induction m with
  | nil => simp [dlistAppend, dlistLookup, Ne.symm h]
  | cons kv rest ih =>
    obtain ⟨k2, xs⟩ := kv
    by_cases h1 : (k2 == k) = true
    · have hk : k2 = k := by simpa using h1
      subst hk
      simp [dlistAppend, dlistLookup, h1, Ne.symm h]
    · by_cases h2 : (k2 == c) = true
      · simp [dlistAppend, dlistLookup, h1, h2]
      · simp [dlistAppend, dlistLookup, h1, h2, ih]

theorem dlistExtend_lookup_self (m : List (String × List JVal)) (k : String)
    (vs : List JVal) : dlistLookup (dlistExtend m k vs) k = dlistLookup m k ++ vs := by
  induction m with
  | nil => simp [dlistExtend, dlistLookup]
  | cons kv rest ih =>
    obtain ⟨k2, xs⟩ := kv
    by_cases h : (k2 == k) = true
    · simp [dlistExtend, dlistLookup, h]
    · simp [dlistExtend, dlistLookup, h, ih]

theorem dlistExtend_lookup_ne (m : List (String × List JVal)) (k : String)
    (vs : List JVal) (c : String) (h : c ≠ k) :
    dlistLookup (dlistExtend m k vs) c = dlistLookup m c := by
  induction m with
  | nil => simp [dlistExtend, dlistLookup, Ne.symm h]
  | cons kv rest ih =>
    obtain ⟨k2, xs⟩ := kv
    by_cases h1 : (k2 == k) = true
    · have hk : k2 = k := by simpa using h1
      subst hk
      simp [dlistExtend, dlistLookup, h1, Ne.symm h]
    · by_cases h2 : (k2 == c) = true
      · simp [dlistExtend, dlistLookup, h1, h2]
      · simp [dlistExtend, dlistLookup, h1, h2, ih]

theorem dlistGet_fst (m : List (String × List JVal)) (k : String) :
    (dlistGet m k).1 = dlistLookup m k := by
  induction m with
  | nil => rfl
  | cons kv rest ih =>
    obtain ⟨k2, xs⟩ := kv
    by_cases h : (k2 == k) = true
    · simp [dlistGet, dlistLookup, h]
    · simp [dlistGet, dlistLookup, h, ih]

theorem dlistGet_snd_lookup (m : List (String × List JVal)) (k c : String) :
    dlistLookup (dlistGet m k).2 c = dlistLookup m c := by
  induction m with
  | nil => cases h : (k == c) <;> simp [dlistGet, dlistLookup, h]
  | cons kv rest ih =>
    obtain ⟨k2, xs⟩ := kv
    by_cases h : (k2 == k) = true
    · simp [dlistGet, dlistLookup, h]
    · by_cases h2 : (k2 == c) = true
      · simp [dlistGet, dlistLookup, h, h2]
      · simp [dlistGet, dlistLookup, h, h2, ih]

theorem mem_keys_dlistAppend {c : String} :
    ∀ (m : List (String × List JVal)) (k : String) (v : JVal),
    c ∈ (dlistAppend m k v).map Prod.fst → c ∈ m.map Prod.fst ∨ c = k := by
  intro m k v
  induction m with
  | nil =>
    intro h
    rw [show dlistAppend [] k v = [(k, [v])] from rfl, List.map_cons, List.map_nil] at h
    exact Or.inr (List.mem_singleton.mp h)
  | cons kv rest ih =>
    obtain ⟨k2, xs⟩ := kv
    intro h
    by_cases h1 : (k2 == k) = true
    · rw [show dlistAppend ((k2, xs) :: rest) k v = (k2, xs ++ [v]) :: rest from by
        simp [dlistAppend, h1], List.map_cons] at h
      rcases List.mem_cons.mp h with h2 | h2
      · exact Or.inl (List.mem_cons.mpr (Or.inl h2))
      · exact Or.inl (List.mem_cons.mpr (Or.inr h2))
    · rw [show dlistAppend ((k2, xs) :: rest) k v = (k2, xs) :: dlistAppend rest k v from by
        simp [dlistAppend, h1], List.map_cons] at h
      rcases List.mem_cons.mp h with h2 | h2
      · exact Or.inl (List.mem_cons.mpr (Or.inl h2))
      · rcases ih h2 with h3 | h3
        · exact Or.inl (List.mem_cons.mpr (Or.inr h3))
        · exact Or.inr h3

theorem keys_nodup_dlistAppend :
    ∀ (m : List (String × List JVal)) (k : String) (v : JVal),
    (m.map Prod.fst).Nodup → ((dlistAppend m k v).map Prod.fst).Nodup := by
  intro m k v
  induction m with
  | nil =>
    intro _
    rw [show dlistAppend [] k v = [(k, [v])] from rfl, List.map_cons, List.map_nil]
    exact List.nodup_singleton k
  | cons kv rest ih =>
    obtain ⟨k2, xs⟩ := kv
    intro h
    rw [List.map_cons, List.nodup_cons] at h
    by_cases h1 : (k2 == k) = true
    · rw [show dlistAppend ((k2, xs) :: rest) k v = (k2, xs ++ [v]) :: rest from by
        simp [dlistAppend, h1], List.map_cons, List.nodup_cons]
      exact ⟨h.1, h.2⟩
    · rw [show dlistAppend ((k2, xs) :: rest) k v = (k2, xs) :: dlistAppend rest k v from by
        simp [dlistAppend, h1], List.map_cons, List.nodup_cons]
      refine ⟨?_, ih h.2⟩
      intro hc
      rcases mem_keys_dlistAppend rest k v hc with h4 | h4
      · exact h.1 h4
      · have h5 : k2 = k := h4
        rw [h5] at h1
        simp at h1

theorem dlistLookup_eq_nil :
    ∀ {m : List (String × List JVal)} {c : String},
    c ∉ m.map Prod.fst → dlistLookup m c = [] := by
  intro m
  induction m with
  | nil => intro c _; rfl
  | cons kv rest ih =>
    obtain ⟨k2, xs⟩ := kv
    intro c h
    rw [List.map_cons] at h
    have h1 : ¬(c = k2) := fun he => h (List.mem_cons.mpr (Or.inl he))
    have h2 : c ∉ rest.map Prod.fst := fun hm => h (List.mem_cons.mpr (Or.inr hm))
    have h3 : (k2 == c) = false := by
      cases hb : (k2 == c)
      · rfl
      · exact absurd ((by simpa using hb : k2 = c)).symm h1
    rw [show dlistLookup ((k2, xs) :: rest) c = dlistLookup rest c from by
      simp [dlistLookup, h3]]
    exact ih h2

theorem foldlExtend_lookup_suffix :
    ∀ (ex : List (String × List JVal)) (m : List (String × List JVal)) (c : String),
    ∃ t, dlistLookup (List.foldl (fun acc kv => dlistExtend acc kv.1 kv.2) m ex) c =
      dlistLookup m c ++ t := by
  intro ex
  induction ex with
  | nil => intro m c; exact ⟨[], by simp⟩
  | cons kv rest ih =>
    intro m c
    obtain ⟨k, vs⟩ := kv
    rw [List.foldl_cons]
    rcases ih (dlistExtend m k vs) c with ⟨t, ht⟩
    by_cases hc : c = k
    · subst hc
      rw [ht, dlistExtend_lookup_self]
      exact ⟨vs ++ t, by rw [List.append_assoc]⟩
    · rw [ht, dlistExtend_lookup_ne m k vs c hc]
      exact ⟨t, rfl⟩

theorem foldlExtend_lookup_nodup :
    ∀ (ex : List (String × List JVal)), (ex.map Prod.fst).Nodup →
    ∀ (m : List (String × List JVal)) (c : String),
    dlistLookup (List.foldl (fun acc kv => dlistExtend acc kv.1 kv.2) m ex) c =
      dlistLookup m c ++ dlistLookup ex c := by
  intro ex
  induction ex with
  | nil => intro _ m c; simp [dlistLookup]
  | cons kv rest ih =>
    intro hnd m c
    obtain ⟨k, vs⟩ := kv
    rw [List.map_cons, List.nodup_cons] at hnd
    rw [List.foldl_cons, ih hnd.2 (dlistExtend m k vs) c]
    by_cases hc : c = k
    · subst hc
      rw [dlistExtend_lookup_self, dlistLookup_eq_nil hnd.1,
        dlistLookup]
      simp
    · rw [dlistExtend_lookup_ne m k vs c hc, dlistLookup]
      have h1 : (k == c) = false := by
        cases hb : (k == c)
        · rfl
        · exact absurd (by simpa using hb : k = c) (fun he => hc he.symm)
      rw [h1]
      simp

/-!
## Helper lemmas: the `defaultdict(set)` model and `extract_sessions`
-/

theorem dsetAddAux_values :
    ∀ (m : List (JVal × List JVal)) (host u : JVal) (kv2 : JVal × List JVal),
    kv2 ∈ dsetAddAux m host u → ∀ w ∈ kv2.2, (∃ kv ∈ m, w ∈ kv.2) ∨ w = u := by
  intro m host u
  induction m with
  | nil =>
    intro kv2 hkv w hw
    rw [show dsetAddAux [] host u = [(host, pySetAdd [] u)] from rfl] at hkv
    rw [List.mem_singleton.mp hkv] at hw
    have hw2 : w ∈ pySetAdd [] u := hw
    rcases mem_pySetAdd hw2 with h2 | h2
    · cases h2
    · exact Or.inr h2
  | cons kv rest ih =>
    obtain ⟨k, s⟩ := kv
    intro kv2 hkv w hw
    by_cases h1 : pyEq k host = true
    · rw [show dsetAddAux ((k, s) :: rest) host u = (k, pySetAdd s u) :: rest from by
        simp [dsetAddAux, h1]] at hkv
      rcases List.mem_cons.mp hkv with h2 | h2
      · rw [h2] at hw
        have hw2 : w ∈ pySetAdd s u := hw
        rcases mem_pySetAdd hw2 with h3 | h3
        · exact Or.inl ⟨(k, s), List.mem_cons_self _ _, h3⟩
        · exact Or.inr h3
      · exact Or.inl ⟨kv2, List.mem_cons_of_mem _ h2, hw⟩
    · rw [show dsetAddAux ((k, s) :: rest) host u = (k, s) :: dsetAddAux rest host u from by
        simp [dsetAddAux, h1]] at hkv
      rcases List.mem_cons.mp hkv with h2 | h2
      · rw [h2] at hw
        exact Or.inl ⟨(k, s), List.mem_cons_self _ _, hw⟩
      · rcases ih kv2 h2 w hw with h3 | h3
        · rcases h3 with ⟨kv3, hm, hw3⟩
          exact Or.inl ⟨kv3, List.mem_cons_of_mem _ hm, hw3⟩
        · exact Or.inr h3

theorem dsetAddAux_pairwise :
    ∀ (m : List (JVal × List JVal)) (host u : JVal),
    (∀ kv ∈ m, List.Pairwise (fun a b => pyEq a b = false) kv.2) →
    ∀ kv2 ∈ dsetAddAux m host u, List.Pairwise (fun a b => pyEq a b = false) kv2.2 := by
  intro m host u
  induction m with
  | nil =>
    intro _ kv2 hkv
    rw [show dsetAddAux [] host u = [(host, pySetAdd [] u)] from rfl] at hkv
    rw [List.mem_singleton.mp hkv]
    exact pairwise_pySetAdd (List.Pairwise.nil)
  | cons kv rest ih =>
    obtain ⟨k, s⟩ := kv
    intro hm kv2 hkv
    by_cases h1 : pyEq k host = true
    · rw [show dsetAddAux ((k, s) :: rest) host u = (k, pySetAdd s u) :: rest from by
        simp [dsetAddAux, h1]] at hkv
      rcases List.mem_cons.mp hkv with h2 | h2
      · rw [h2]
        exact pairwise_pySetAdd (hm (k, s) (List.mem_cons_self _ _))
      · exact hm kv2 (List.mem_cons_of_mem _ h2)
    · rw [show dsetAddAux ((k, s) :: rest) host u = (k, s) :: dsetAddAux rest host u from by
        simp [dsetAddAux, h1]] at hkv
      rcases List.mem_cons.mp hkv with h2 | h2
      · rw [h2]
        exact hm (k, s) (List.mem_cons_self _ _)
      · exact ih (fun kv3 hm3 => hm kv3 (List.mem_cons_of_mem _ hm3)) kv2 h2

theorem dsetUpdate_values :
    ∀ (m : List (JVal × List JVal)) (host : JVal) (us : List JVal)
      (kv2 : JVal × List JVal),
    kv2 ∈ dsetUpdate m host us → ∀ w ∈ kv2.2, (∃ kv ∈ m, w ∈ kv.2) ∨ w ∈ us := by
  intro m host us
  induction m with
  | nil =>
    intro kv2 hkv w hw
    rw [show dsetUpdate [] host us = [(host, us.foldl pySetAdd [])] from rfl] at hkv
    rw [List.mem_singleton.mp hkv] at hw
    have hw2 : w ∈ List.foldl pySetAdd [] us := hw
    rcases mem_foldl_pySetAdd us [] hw2 with h2 | h2
    · cases h2
    · exact Or.inr h2
  | cons kv rest ih =>
    obtain ⟨k, s⟩ := kv
    intro kv2 hkv w hw
    by_cases h1 : pyEq k host = true
    · rw [show dsetUpdate ((k, s) :: rest) host us = (k, us.foldl pySetAdd s) :: rest from by
        simp [dsetUpdate, h1]] at hkv
      rcases List.mem_cons.mp hkv with h2 | h2
      · rw [h2] at hw
        have hw2 : w ∈ List.foldl pySetAdd s us := hw
        rcases mem_foldl_pySetAdd us s hw2 with h3 | h3
        · exact Or.inl ⟨(k, s), List.mem_cons_self _ _, h3⟩
        · exact Or.inr h3
      · exact Or.inl ⟨kv2, List.mem_cons_of_mem _ h2, hw⟩
    · rw [show dsetUpdate ((k, s) :: rest) host us = (k, s) :: dsetUpdate rest host us from by
        simp [dsetUpdate, h1]] at hkv
      rcases List.mem_cons.mp hkv with h2 | h2
      · rw [h2] at hw
        exact Or.inl ⟨(k, s), List.mem_cons_self _ _, hw⟩
      · rcases ih kv2 h2 w hw with h3 | h3
        · rcases h3 with ⟨kv3, hm, hw3⟩
          exact Or.inl ⟨kv3, List.mem_cons_of_mem _ hm, hw3⟩
        · exact Or.inr h3

theorem mergeSessions_values :
    ∀ (ex m : List (JVal × List JVal)) (kv2 : JVal × List JVal),
    kv2 ∈ List.foldl (fun acc kv => dsetUpdate acc kv.1 kv.2) m ex →
    ∀ w ∈ kv2.2, (∃ kv ∈ m, w ∈ kv.2) ∨ (∃ kv ∈ ex, w ∈ kv.2) := by
  intro ex
  induction ex with
  | nil => intro m kv2 hkv w hw; exact Or.inl ⟨kv2, hkv, hw⟩
  | cons kv rest ih =>
    obtain ⟨k, us⟩ := kv
    intro m kv2 hkv w hw
    rw [List.foldl_cons] at hkv
    rcases ih (dsetUpdate m k us) kv2 hkv w hw with h1 | h1
    · rcases h1 with ⟨kv3, hm3, hw3⟩
      rcases dsetUpdate_values m k us kv3 hm3 w hw3 with h2 | h2
      · exact Or.inl h2
      · exact Or.inr ⟨(k, us), List.mem_cons_self _ _, h2⟩
    · rcases h1 with ⟨kv3, hm3, hw3⟩
      exact Or.inr ⟨kv3, List.mem_cons_of_mem _ hm3, hw3⟩

/-- Any property `Q` holding of every hashable username that is a Python
member of `high_priv_accounts` is an invariant of the inner session loop. -/
theorem sessSession_preserves (Q : JVal → Prop) (priv : List JVal) (host : JVal)
    (hQ : ∀ u, hashable u = true → pyMem priv u = true → Q u)
    (sd : List (JVal × List JVal)) (session : JVal) (sd2 : List (JVal × List JVal))
    (hok : sessSession priv host sd session = .ok sd2)
    (hsd : ∀ kv ∈ sd, ∀ u ∈ kv.2, Q u) : ∀ kv ∈ sd2, ∀ u ∈ kv.2, Q u := by
  unfold sessSession at hok
  cases hu : pyGetD session "user" (.obj []) with
  | error m => rw [hu, exceptBind_error] at hok; cases hok
  | ok user =>
    rw [hu, exceptBind_ok] at hok
    cases hn : pyGetD user "name" (.str "") with
    | error m => rw [hn, exceptBind_error] at hok; cases hok
    | ok username =>
      rw [hn, exceptBind_ok] at hok
      cases hp : pyIn username priv with
      | error m => rw [hp, exceptBind_error] at hok; cases hok
      | ok isPriv =>
        rw [hp, exceptBind_ok] at hok
        cases isPriv with
        | false =>
          rw [if_neg (by simp)] at hok
          injection hok with h1
          rw [← h1]
          exact hsd
        | true =>
          rw [if_pos rfl] at hok
          unfold dsetAdd at hok
          by_cases hh : hashable host = true
          · rw [if_pos hh] at hok
            injection hok with h1
            unfold pyIn at hp
            by_cases hhu : hashable username = true
            · rw [if_pos hhu] at hp
              injection hp with h2
              intro kv hkv u hu2
              rw [← h1] at hkv
              rcases dsetAddAux_values sd host username kv hkv u hu2 with h3 | h3
              · rcases h3 with ⟨kv3, hm3, hw3⟩
                exact hsd kv3 hm3 u hw3
              · exact h3 ▸ hQ username hhu h2
            · rw [if_neg hhu] at hp; cases hp
          · rw [if_neg hh] at hok; cases hok

/-- The same invariant is preserved by the per-node loop of
`extract_sessions`. -/
theorem sessNode_preserves (Q : JVal → Prop) (priv : List JVal)
    (hQ : ∀ u, hashable u = true → pyMem priv u = true → Q u)
    (sd : List (JVal × List JVal)) (node : JVal) (sd2 : List (JVal × List JVal))
    (hok : sessNode priv sd node = .ok sd2)
    (hsd : ∀ kv ∈ sd, ∀ u ∈ kv.2, Q u) : ∀ kv ∈ sd2, ∀ u ∈ kv.2, Q u := by
  unfold sessNode at hok
  cases hp : pyGetD node "properties" (.obj []) with
  | error m => rw [hp, exceptBind_error] at hok; cases hok
  | ok properties =>
    rw [hp, exceptBind_ok] at hok
    cases hh : pyGetD properties "name" (.str "Unknown") with
    | error m => rw [hh, exceptBind_error] at hok; cases hok
    | ok host =>
      rw [hh, exceptBind_ok] at hok
      cases hs : pyGetD node "sessions" (.list []) with
      | error m => rw [hs, exceptBind_error] at hok; cases hok
      | ok sessions =>
        rw [hs, exceptBind_ok] at hok
        cases hi : pyIter sessions with
        | error m => rw [hi, exceptBind_error] at hok; cases hok
        | ok sessionList =>
          rw [hi, exceptBind_ok] at hok
          exact exFoldlM_ok_invariant (fun b => ∀ kv ∈ b, ∀ u ∈ kv.2, Q u)
            (sessSession priv host) sessionList sd hsd
            (fun b a b' _ hb hstep => sessSession_preserves Q priv host hQ b a b' hstep hb)
            sd2 hok

/-- Any property `Q` holding of every hashable Python member of the supplied
privileged set holds of every username `extract_sessions` reports. -/
theorem extract_sessions_prop (Q : JVal → Prop) (doc : JVal) (priv : List JVal)
    (m : List (JVal × List JVal))
    (hQ : ∀ u, hashable u = true → pyMem priv u = true → Q u)
    (h : extract_sessions doc priv = .ok m) : ∀ kv ∈ m, ∀ u ∈ kv.2, Q u := by
  unfold extract_sessions at h
  cases hn : pyGetD doc "nodes" (.list []) with
  | error msg => rw [hn, exceptBind_error] at h; cases h
  | ok nodes =>
    rw [hn, exceptBind_ok] at h
    cases hi : pyIter nodes with
    | error msg => rw [hi, exceptBind_error] at h; cases h
    | ok nodeList =>
      rw [hi, exceptBind_ok] at h
      exact exFoldlM_ok_invariant (fun b => ∀ kv ∈ b, ∀ u ∈ kv.2, Q u)
        (sessNode priv) nodeList [] (fun kv hkv => absurd hkv (List.not_mem_nil kv))
        (fun b a b' _ hb hstep => sessNode_preserves Q priv hQ b a b' hstep hb)
        m h

/-- Every username `extract_sessions` reports is a Python member of the
privileged set supplied at that call. -/
theorem extract_sessions_mem_priv (doc : JVal) (priv : List JVal)
    (m : List (JVal × List JVal)) (h : extract_sessions doc priv = .ok m) :
    ∀ kv ∈ m, ∀ u ∈ kv.2, pyMem priv u = true :=
  extract_sessions_prop (fun u => pyMem priv u = true) doc priv m
    (fun _ _ hm => hm) h

theorem sessSession_pairwise (priv : List JVal) (host : JVal)
    (sd : List (JVal × List JVal)) (session : JVal) (sd2 : List (JVal × List JVal))
    (hok : sessSession priv host sd session = .ok sd2)
    (hsd : ∀ kv ∈ sd, List.Pairwise (fun a b => pyEq a b = false) kv.2) :
    ∀ kv ∈ sd2, List.Pairwise (fun a b => pyEq a b = false) kv.2 := by
  unfold sessSession at hok
  cases hu : pyGetD session "user" (.obj []) with
  | error m => rw [hu, exceptBind_error] at hok; cases hok
  | ok user =>
    rw [hu, exceptBind_ok] at hok
    cases hn : pyGetD user "name" (.str "") with
    | error m => rw [hn, exceptBind_error] at hok; cases hok
    | ok username =>
      rw [hn, exceptBind_ok] at hok
      cases hp : pyIn username priv with
      | error m => rw [hp, exceptBind_error] at hok; cases hok
      | ok isPriv =>
        rw [hp, exceptBind_ok] at hok
        cases isPriv with
        | false =>
          rw [if_neg (by simp)] at hok
          injection hok with h1
          rw [← h1]
          exact hsd
        | true =>
          rw [if_pos rfl] at hok
          unfold dsetAdd at hok
          by_cases hh : hashable host = true
          · rw [if_pos hh] at hok
            injection hok with h1
            rw [← h1]
            exact dsetAddAux_pairwise sd host username hsd
          · rw [if_neg hh] at hok; cases hok

theorem sessNode_pairwise (priv : List JVal)
    (sd : List (JVal × List JVal)) (node : JVal) (sd2 : List (JVal × List JVal))
    (hok : sessNode priv sd node = .ok sd2)
    (hsd : ∀ kv ∈ sd, List.Pairwise (fun a b => pyEq a b = false) kv.2) :
    ∀ kv ∈ sd2, List.Pairwise (fun a b => pyEq a b = false) kv.2 := by
  unfold sessNode at hok
  cases hp : pyGetD node "properties" (.obj []) with
  | error m => rw [hp, exceptBind_error] at hok; cases hok
  | ok properties =>
    rw [hp, exceptBind_ok] at hok
    cases hh : pyGetD properties "name" (.str "Unknown") with
    | error m => rw [hh, exceptBind_error] at hok; cases hok
    | ok host =>
      rw [hh, exceptBind_ok] at hok
      cases hs : pyGetD node "sessions" (.list []) with
      | error m => rw [hs, exceptBind_error] at hok; cases hok
      | ok sessions =>
        rw [hs, exceptBind_ok] at hok
        cases hi : pyIter sessions with
        | error m => rw [hi, exceptBind_error] at hok; cases hok
        | ok sessionList =>
          rw [hi, exceptBind_ok] at hok
          exact exFoldlM_ok_invariant
            (fun b => ∀ kv ∈ b, List.Pairwise (fun a b => pyEq a b = false) kv.2)
            (sessSession priv host) sessionList sd hsd
            (fun b a b' _ hb hstep => sessSession_pairwise priv host b a b' hstep hb)
            sd2 hok

/-- The per-host user sets of `extract_sessions` contain no two
Python-equal usernames. -/
theorem extract_sessions_pairwise (doc : JVal) (priv : List JVal)
    (m : List (JVal × List JVal)) (h : extract_sessions doc priv = .ok m) :
    ∀ kv ∈ m, List.Pairwise (fun a b => pyEq a b = false) kv.2 := by
  unfold extract_sessions at h
  cases hn : pyGetD doc "nodes" (.list []) with
  | error msg => rw [hn, exceptBind_error] at h; cases h
  | ok nodes =>
    rw [hn, exceptBind_ok] at h
    cases hi : pyIter nodes with
    | error msg => rw [hi, exceptBind_error] at h; cases h
    | ok nodeList =>
      rw [hi, exceptBind_ok] at h
      exact exFoldlM_ok_invariant
        (fun b => ∀ kv ∈ b, List.Pairwise (fun a b => pyEq a b = false) kv.2)
        (sessNode priv) nodeList [] (fun kv hkv => absurd hkv (List.not_mem_nil kv))
        (fun b a b' _ hb hstep => sessNode_pairwise priv b a b' hstep hb)
        m h

/-!
## Helper lemmas: `extract_high_value_targets` and
`extract_unconstrained_delegation_principals` on well-formed documents
-/

theorem objLookup_any (props : List (String × JVal)) (k : String) :
    props.any (fun kv => kv.1 == k) = (objLookup props k).isSome := by
  induction props with
  | nil => rfl
  | cons kv rest ih =>
    obtain ⟨k2, v⟩ := kv
    by_cases h : (k2 == k) = true
    · simp [objLookup, List.find?_cons_of_pos, h]
    · have h2 : ¬((fun kv : String × JVal => kv.1 == k) (k2, v) = true) := h
      rw [List.any_cons]
      unfold objLookup
      rw [show List.find? (fun kv => kv.1 == k) ((k2, v) :: rest) =
          List.find? (fun kv => kv.1 == k) rest from List.find?_cons_of_neg _ h2]
      rw [show ((k2, v).1 == k) = false from by simpa using h]
      rw [Bool.false_or]
      exact ih

theorem pyEq_int_one (v : JVal) :
    pyEq v (.int 1) = (decide (v = JVal.int 1) || decide (v = JVal.bool true)) := by
  cases v with
  | null => rfl
  | bool b => cases b <;> rfl
  | int n => by_cases h : n = 1 <;> simp [pyEq, h]
  | str s => rfl
  | list elems => rfl
  | obj entries => rfl

/-- On a well-formed node `hvNode` always succeeds, with the pure effect
`hvNodeModel`. -/
theorem hvNode_mkNode (acc : List (String × List JVal)) (props rest : List (String × JVal)) :
    hvNode acc (mkNode props rest) = .ok (hvNodeModel acc props) := by
  have e1 : pyGetD (mkNode props rest) "properties" (.obj []) = .ok (.obj props) := rfl
  have e2 : pyGetD (JVal.obj props) "name" (.str "Unknown") =
    .ok (displayName props) := rfl
  have e3 : pyGetD (JVal.obj props) "highvalue" (.bool false) =
    .ok (flagValue props "highvalue") := rfl
  have e4 : pyContains "admincount" (JVal.obj props) =
    .ok (props.any fun kv => kv.1 == "admincount") := rfl
  have e5 : pyGetD (JVal.obj props) "hasspn" (.bool false) =
    .ok (flagValue props "hasspn") := rfl
  have e6 : pyGetD (JVal.obj props) "unconstraineddelegation" (.bool false) =
    .ok (flagValue props "unconstraineddelegation") := rfl
  have e7 : pyGetD (JVal.obj props) "allowedtodelegate" (.bool false) =
    .ok (flagValue props "allowedtodelegate") := rfl
  cases hlk : objLookup props "admincount" with
  | none =>
    have hany : (props.any fun kv => kv.1 == "admincount") = false := by
      rw [objLookup_any, hlk]; rfl
    simp [hvNode, hvNodeModel, e1, e2, e3, e4, e5, e6, e7, exceptBind_ok, hany, hlk]
  | some v =>
    have hsub : pySubscript (JVal.obj props) "admincount" = .ok v := by
      show (match objLookup props "admincount" with
            | some w => Except.ok w
            | none => Except.error "KeyError") = Except.ok v
      rw [hlk]
    have hany : (props.any fun kv => kv.1 == "admincount") = true := by
      rw [objLookup_any, hlk]; rfl
    simp [hvNode, hvNodeModel, e1, e2, e3, e4, e5, e6, e7, exceptBind_ok, hany, hsub, hlk]

theorem hvFold_mkDoc :
    ∀ (ns : List (List (String × JVal) × List (String × JVal)))
      (acc : List (String × List JVal)),
    List.foldlM hvNode acc (ns.map fun n => mkNode n.1 n.2) =
      .ok (List.foldl (fun a n => hvNodeModel a n.1) acc ns) := by
  intro ns
  induction ns with
  | nil => intro acc; rw [List.map_nil, List.foldlM_nil]; rfl
  | cons n rest ih =>
    intro acc
    rw [List.map_cons, List.foldlM_cons, hvNode_mkNode, exceptMonadBind_ok, List.foldl_cons]
    exact ih (hvNodeModel acc n.1)

/-- On a well-formed document `extract_high_value_targets` always succeeds,
with the fold of the per-node pure effect. -/
theorem extract_hv_mkDoc (ns : List (List (String × JVal) × List (String × JVal))) :
    extract_high_value_targets (mkDoc ns) =
      .ok (List.foldl (fun a n => hvNodeModel a n.1) [] ns) := by
  unfold extract_high_value_targets
  rw [show pyGetD (mkDoc ns) "nodes" (.list []) =
      .ok (.list (ns.map fun n => mkNode n.1 n.2)) from rfl, exceptBind_ok]
  rw [show pyIter (.list (ns.map fun n => mkNode n.1 n.2)) =
      .ok (ns.map fun n => mkNode n.1 n.2) from rfl, exceptBind_ok]
  exact hvFold_mkDoc ns []

theorem dlistAppend_cond_lookup_ne (m : List (String × List JVal)) (k : String)
    (v : JVal) (c : String) (cond : Bool) (h : c ≠ k) :
    dlistLookup (if cond then dlistAppend m k v else m) c = dlistLookup m c := by
  cases cond
  · simp
  · simpa using dlistAppend_lookup_ne m k v c h

theorem dlistAppend_cond_lookup_self (m : List (String × List JVal)) (k : String)
    (v : JVal) (cond : Bool) :
    dlistLookup (if cond then dlistAppend m k v else m) k =
      dlistLookup m k ++ (if cond then [v] else []) := by
  cases cond
  · simp
  · simpa using dlistAppend_lookup_self m k v

theorem hvNodeModel_lookup_HV (acc : List (String × List JVal))
    (p : List (String × JVal)) :
    dlistLookup (hvNodeModel acc p) "High Value" =
      dlistLookup acc "High Value" ++
        (if truthy (flagValue p "highvalue") then [displayName p] else []) := by
  unfold hvNodeModel
  cases hlk : objLookup p "admincount" with
  | none =>
    rw [dlistAppend_cond_lookup_ne _ _ _ _ _ (by decide),
      dlistAppend_cond_lookup_ne _ _ _ _ _ (by decide),
      dlistAppend_cond_lookup_ne _ _ _ _ _ (by decide),
      dlistAppend_cond_lookup_self]
  | some v =>
    rw [dlistAppend_cond_lookup_ne _ _ _ _ _ (by decide),
      dlistAppend_cond_lookup_ne _ _ _ _ _ (by decide),
      dlistAppend_cond_lookup_ne _ _ _ _ _ (by decide),
      dlistAppend_cond_lookup_ne _ _ _ _ _ (by decide),
      dlistAppend_cond_lookup_self]

theorem hvNodeModel_lookup_DA (acc : List (String × List JVal))
    (p : List (String × JVal)) :
    dlistLookup (hvNodeModel acc p) "Domain Admins / Enterprise Admins" =
      dlistLookup acc "Domain Admins / Enterprise Admins" ++
        (if admincountHit p then [displayName p] else []) := by
  unfold hvNodeModel admincountHit
  cases hlk : objLookup p "admincount" with
  | none =>
    rw [dlistAppend_cond_lookup_ne _ _ _ _ _ (by decide),
      dlistAppend_cond_lookup_ne _ _ _ _ _ (by decide),
      dlistAppend_cond_lookup_ne _ _ _ _ _ (by decide),
      dlistAppend_cond_lookup_ne _ _ _ _ _ (by decide)]
    simp
  | some v =>
    rw [dlistAppend_cond_lookup_ne _ _ _ _ _ (by decide),
      dlistAppend_cond_lookup_ne _ _ _ _ _ (by decide),
      dlistAppend_cond_lookup_ne _ _ _ _ _ (by decide),
      dlistAppend_cond_lookup_self,
      dlistAppend_cond_lookup_ne _ _ _ _ _ (by decide),
      pyEq_int_one]

theorem hvRun_lookup_HV :
    ∀ (ns : List (List (String × JVal) × List (String × JVal)))
      (acc : List (String × List JVal)),
    dlistLookup (List.foldl (fun a n => hvNodeModel a n.1) acc ns) "High Value" =
      dlistLookup acc "High Value" ++
        ((ns.map Prod.fst).filter (fun p => truthy (flagValue p "highvalue"))).map
          displayName := by
  intro ns
  induction ns with
  | nil => intro acc; simp
  | cons n rest ih =>
    intro acc
    rw [List.foldl_cons, ih (hvNodeModel acc n.1), hvNodeModel_lookup_HV, List.map_cons]
    by_cases hc : truthy (flagValue n.1 "highvalue") = true
    · rw [if_pos hc, List.filter_cons_of_pos (by simpa using hc), List.map_cons,
        List.append_assoc]
      simp
    · rw [if_neg hc, List.filter_cons_of_neg (by simpa using hc), List.append_nil]

theorem hvRun_lookup_DA :
    ∀ (ns : List (List (String × JVal) × List (String × JVal)))
      (acc : List (String × List JVal)),
    dlistLookup (List.foldl (fun a n => hvNodeModel a n.1) acc ns)
        "Domain Admins / Enterprise Admins" =
      dlistLookup acc "Domain Admins / Enterprise Admins" ++
        ((ns.map Prod.fst).filter admincountHit).map displayName := by
  intro ns
  induction ns with
  | nil => intro acc; simp
  | cons n rest ih =>
    intro acc
    rw [List.foldl_cons, ih (hvNodeModel acc n.1), hvNodeModel_lookup_DA, List.map_cons]
    by_cases hc : admincountHit n.1 = true
    · rw [if_pos hc, List.filter_cons_of_pos (by simpa using hc), List.map_cons,
        List.append_assoc]
      simp
    · rw [if_neg hc, List.filter_cons_of_neg (by simpa using hc), List.append_nil]

/-- On a well-formed node `udNode` always succeeds. -/
theorem udNode_mkNode (acc : List JVal) (props rest : List (String × JVal)) :
    udNode acc (mkNode props rest) =
      .ok (if truthy (flagValue props "unconstraineddelegation")
           then acc ++ [displayName props] else acc) := rfl

theorem udFold_mkDoc :
    ∀ (ns : List (List (String × JVal) × List (String × JVal))) (acc : List JVal),
    List.foldlM udNode acc (ns.map fun n => mkNode n.1 n.2) =
      .ok (acc ++ ((ns.map Prod.fst).filter
        (fun p => truthy (flagValue p "unconstraineddelegation"))).map displayName) := by
  intro ns
  induction ns with
  | nil => intro acc; rw [List.map_nil, List.foldlM_nil]; simp; rfl
  | cons n rest ih =>
    intro acc
    rw [List.map_cons, List.foldlM_cons, udNode_mkNode, exceptMonadBind_ok, List.map_cons]
    by_cases hc : truthy (flagValue n.1 "unconstraineddelegation") = true
    · rw [if_pos hc, ih (acc ++ [displayName n.1]),
        List.filter_cons_of_pos (by simpa using hc), List.map_cons, List.append_assoc]
      simp
    · rw [if_neg hc, ih acc, List.filter_cons_of_neg (by simpa using hc)]

/-- On a well-formed document `extract_unconstrained_delegation_principals` yields
the display names of nodes whose flag is truthy, in document order. -/
theorem extract_ud_mkDoc (ns : List (List (String × JVal) × List (String × JVal))) :
    extract_unconstrained_delegation_principals (mkDoc ns) =
      .ok (((ns.map Prod.fst).filter
        (fun p => truthy (flagValue p "unconstraineddelegation"))).map displayName) := by
  unfold extract_unconstrained_delegation_principals
  rw [show pyGetD (mkDoc ns) "nodes" (.list []) =
      .ok (.list (ns.map fun n => mkNode n.1 n.2)) from rfl, exceptBind_ok]
  rw [show pyIter (.list (ns.map fun n => mkNode n.1 n.2)) =
      .ok (ns.map fun n => mkNode n.1 n.2) from rfl, exceptBind_ok]
  rw [udFold_mkDoc ns []]
  rfl

theorem keys_nodup_cond (m : List (String × List JVal)) (k : String) (v : JVal)
    (cond : Bool) (h : (m.map Prod.fst).Nodup) :
    ((if cond then dlistAppend m k v else m).map Prod.fst).Nodup := by
  cases cond
  · simpa using h
  · simpa using keys_nodup_dlistAppend m k v h

/-- Every step of the high-value extraction keeps category keys distinct. -/
theorem hvNode_keys_nodup (b : List (String × List JVal)) (node : JVal)
    (b2 : List (String × List JVal)) (hok : hvNode b node = .ok b2)
    (hnd : (b.map Prod.fst).Nodup) : (b2.map Prod.fst).Nodup := by
  unfold hvNode at hok
  cases h1 : pyGetD node "properties" (.obj []) with
  | error m => rw [h1, exceptBind_error] at hok; cases hok
  | ok properties =>
    rw [h1, exceptBind_ok] at hok
    cases h2 : pyGetD properties "name" (.str "Unknown") with
    | error m => rw [h2, exceptBind_error] at hok; cases hok
    | ok name =>
      rw [h2, exceptBind_ok] at hok
      cases h3 : pyGetD properties "highvalue" (.bool false) with
      | error m => rw [h3, exceptBind_error] at hok; cases hok
      | ok highvalue =>
        rw [h3, exceptBind_ok] at hok
        cases h4 : pyContains "admincount" properties with
        | error m => rw [h4, exceptBind_error] at hok; cases hok
        | ok hasAdmincount =>
          rw [h4, exceptBind_ok] at hok
          have hnd1 := keys_nodup_cond b "High Value" name (truthy highvalue) hnd
          cases hasAdmincount with
          | false =>
            rw [if_neg (by simp), exceptBind_ok] at hok
            cases h5 : pyGetD properties "hasspn" (.bool false) with
            | error m => rw [h5, exceptBind_error] at hok; cases hok
            | ok hasspn =>
              rw [h5, exceptBind_ok] at hok
              cases h6 : pyGetD properties "unconstraineddelegation" (.bool false) with
              | error m => rw [h6, exceptBind_error] at hok; cases hok
              | ok ud =>
                rw [h6, exceptBind_ok] at hok
                cases h7 : pyGetD properties "allowedtodelegate" (.bool false) with
                | error m => rw [h7, exceptBind_error] at hok; cases hok
                | ok atd =>
                  rw [h7, exceptBind_ok] at hok
                  injection hok with h8
                  rw [← h8]
                  exact keys_nodup_cond _ _ _ _
                    (keys_nodup_cond _ _ _ _ (keys_nodup_cond _ _ _ _ hnd1))
          | true =>
            rw [if_pos rfl] at hok
            cases h9 : pySubscript properties "admincount" with
            | error m => rw [h9, exceptBind_error, exceptBind_error] at hok; cases hok
            | ok admincount =>
              rw [h9, exceptBind_ok, exceptBind_ok] at hok
              have hnd2 := keys_nodup_cond _ "Domain Admins / Enterprise Admins" name
                (pyEq admincount (.int 1)) hnd1
              cases h5 : pyGetD properties "hasspn" (.bool false) with
              | error m => rw [h5, exceptBind_error] at hok; cases hok
              | ok hasspn =>
                rw [h5, exceptBind_ok] at hok
                cases h6 : pyGetD properties "unconstraineddelegation" (.bool false) with
                | error m => rw [h6, exceptBind_error] at hok; cases hok
                | ok ud =>
                  rw [h6, exceptBind_ok] at hok
                  cases h7 : pyGetD properties "allowedtodelegate" (.bool false) with
                  | error m => rw [h7, exceptBind_error] at hok; cases hok
                  | ok atd =>
                    rw [h7, exceptBind_ok] at hok
                    injection hok with h8
                    rw [← h8]
                    exact keys_nodup_cond _ _ _ _
                      (keys_nodup_cond _ _ _ _ (keys_nodup_cond _ _ _ _ hnd2))

/-- The category keys of any successful high-value extraction are distinct. -/
theorem extract_hv_keys_nodup (doc : JVal) (m : List (String × List JVal))
    (h : extract_high_value_targets doc = .ok m) : (m.map Prod.fst).Nodup := by
  unfold extract_high_value_targets at h
  cases hn : pyGetD doc "nodes" (.list []) with
  | error msg => rw [hn, exceptBind_error] at h; cases h
  | ok nodes =>
    rw [hn, exceptBind_ok] at h
    cases hi : pyIter nodes with
    | error msg => rw [hi, exceptBind_error] at h; cases h
    | ok nodeList =>
      rw [hi, exceptBind_ok] at h
      exact exFoldlM_ok_invariant (fun b => (b.map Prod.fst).Nodup) hvNode nodeList []
        (by simp) (fun b a b' _ hb hstep => hvNode_keys_nodup b a b' hstep hb) m h

/-!
## Helper lemmas: the driver (`main`'s file loop)
-/

theorem pyMem_grow {a b ta tb : List JVal} {u : JVal}
    (h : pyMem (a ++ b) u = true) : pyMem ((a ++ ta) ++ (b ++ tb)) u = true := by
  simp only [pyMem_append, Bool.or_eq_true] at h ⊢
  tauto

/-- One file's effect on the running "High Value" list: exactly its
contribution is appended. -/
theorem processFile_lookup_HV (st : RunState) (e : FileEntry) :
    dlistLookup (processFile st e).high_value_targets "High Value" =
      dlistLookup st.high_value_targets "High Value" ++ fileHVContribution e := by
  obtain ⟨fn, ct⟩ := e
  cases ct with
  | error msg => simp [processFile, fileHVContribution]
  | ok doc =>
    cases hx : extract_high_value_targets doc with
    | error msg => simp [processFile, fileHVContribution, hx]
    | ok ex =>
      have hnd := extract_hv_keys_nodup doc ex hx
      have hmerge := foldlExtend_lookup_nodup ex hnd st.high_value_targets "High Value"
      simp only [processFile, hx, fileHVContribution]
      split
      · simp only
        rw [dlistGet_snd_lookup, dlistGet_snd_lookup]
        exact hmerge
      · split
        · simp only
          rw [dlistGet_snd_lookup, dlistGet_snd_lookup]
          exact hmerge
        · split
          · simp only
            rw [dlistGet_snd_lookup, dlistGet_snd_lookup]
            exact hmerge
          · simp only
            rw [dlistGet_snd_lookup, dlistGet_snd_lookup]
            exact hmerge

theorem foldl_processFile_lookup_HV :
    ∀ (fs : List FileEntry) (st : RunState),
    dlistLookup (List.foldl processFile st fs).high_value_targets "High Value" =
      dlistLookup st.high_value_targets "High Value" ++
        (fs.map fileHVContribution).flatten := by
  intro fs
  induction fs with
  | nil => intro st; simp
  | cons f fs ih =>
    intro st
    rw [List.foldl_cons, ih (processFile st f), processFile_lookup_HV, List.map_cons]
    simp [List.append_assoc]

/-- The final "High Value" list of a run is the concatenation of the
per-file contributions, in file order. -/
theorem runFiles_lookup_HV (files : List FileEntry) :
    dlistLookup (runFiles files).high_value_targets "High Value" =
      ((files.filter fun e => strEndsWith e.fname ".json").map
        fileHVContribution).flatten := by
  unfold runFiles
  rw [foldl_processFile_lookup_HV]
  rfl

/-- Processing one more file preserves the invariant that every reported
session username is a Python member of the running privileged lists. -/
theorem processFile_sessionInv (st : RunState) (e : FileEntry)
    (hinv : ∀ kv ∈ st.all_sessions, ∀ u ∈ kv.2,
      pyMem (dlistLookup st.high_value_targets "Domain Admins / Enterprise Admins" ++
        dlistLookup st.high_value_targets "High Value") u = true) :
    ∀ kv ∈ (processFile st e).all_sessions, ∀ u ∈ kv.2,
      pyMem (dlistLookup (processFile st e).high_value_targets
          "Domain Admins / Enterprise Admins" ++
        dlistLookup (processFile st e).high_value_targets "High Value") u = true := by
  obtain ⟨fn, ct⟩ := e
  cases ct with
  | error msg => simpa [processFile] using hinv
  | ok doc =>
    cases hx : extract_high_value_targets doc with
    | error msg => simpa [processFile, hx] using hinv
    | ok ex =>
      obtain ⟨tDA, htDA⟩ := foldlExtend_lookup_suffix ex st.high_value_targets
        "Domain Admins / Enterprise Admins"
      obtain ⟨tHV, htHV⟩ := foldlExtend_lookup_suffix ex st.high_value_targets
        "High Value"
      simp only [processFile, hx]
      split
      · intro kv hkv u hu
        simp only at hkv ⊢
        rw [dlistGet_snd_lookup, dlistGet_snd_lookup, dlistGet_snd_lookup,
          dlistGet_snd_lookup, htDA, htHV]
        exact pyMem_grow (hinv kv hkv u hu)
      · next priv hps =>
        split
        · intro kv hkv u hu
          simp only at hkv ⊢
          rw [dlistGet_snd_lookup, dlistGet_snd_lookup, dlistGet_snd_lookup,
            dlistGet_snd_lookup, htDA, htHV]
          exact pyMem_grow (hinv kv hkv u hu)
        · next exs hsess =>
          have hnew : ∀ kv ∈ exs, ∀ u ∈ kv.2,
              pyMem (dlistLookup (List.foldl (fun acc kv => dlistExtend acc kv.1 kv.2)
                  st.high_value_targets ex) "Domain Admins / Enterprise Admins" ++
                dlistLookup (List.foldl (fun acc kv => dlistExtend acc kv.1 kv.2)
                  st.high_value_targets ex) "High Value") u = true := by
            intro kv hkv u hu
            have h1 := extract_sessions_mem_priv doc priv exs hsess kv hkv u hu
            have h2 := pySetOf_pyMem hps u h1
            rw [pyMem_append, dlistGet_fst, dlistGet_fst, dlistGet_snd_lookup] at h2
            rw [pyMem_append]
            exact h2
          split
          · intro kv hkv u hu
            simp only at hkv ⊢
            rcases mergeSessions_values exs st.all_sessions kv hkv u hu with hold | hn
            · rcases hold with ⟨kv3, hm3, hw3⟩
              rw [dlistGet_snd_lookup, dlistGet_snd_lookup, dlistGet_snd_lookup,
                dlistGet_snd_lookup, htDA, htHV]
              exact pyMem_grow (hinv kv3 hm3 u hw3)
            · rcases hn with ⟨kv3, hm3, hw3⟩
              rw [dlistGet_snd_lookup, dlistGet_snd_lookup, dlistGet_snd_lookup,
                dlistGet_snd_lookup]
              exact hnew kv3 hm3 u hw3
          · intro kv hkv u hu
            simp only at hkv ⊢
            rcases mergeSessions_values exs st.all_sessions kv hkv u hu with hold | hn
            · rcases hold with ⟨kv3, hm3, hw3⟩
              rw [dlistGet_snd_lookup, dlistGet_snd_lookup, dlistGet_snd_lookup,
                dlistGet_snd_lookup, htDA, htHV]
              exact pyMem_grow (hinv kv3 hm3 u hw3)
            · rcases hn with ⟨kv3, hm3, hw3⟩
              rw [dlistGet_snd_lookup, dlistGet_snd_lookup, dlistGet_snd_lookup,
                dlistGet_snd_lookup]
              exact hnew kv3 hm3 u hw3

theorem foldl_processFile_sessionInv :
    ∀ (fs : List FileEntry) (st : RunState),
    (∀ kv ∈ st.all_sessions, ∀ u ∈ kv.2,
      pyMem (dlistLookup st.high_value_targets "Domain Admins / Enterprise Admins" ++
        dlistLookup st.high_value_targets "High Value") u = true) →
    ∀ kv ∈ (List.foldl processFile st fs).all_sessions, ∀ u ∈ kv.2,
      pyMem (dlistLookup (List.foldl processFile st fs).high_value_targets
          "Domain Admins / Enterprise Admins" ++
        dlistLookup (List.foldl processFile st fs).high_value_targets
          "High Value") u = true := by
  intro fs
  induction fs with
  | nil => intro st h; exact h
  | cons f fs ih =>
    intro st h
    rw [List.foldl_cons]
    exact ih (processFile st f) (processFile_sessionInv st f h)

/-- Every username in the final session map is a Python member of the final
privileged lists of the run. -/
theorem runFiles_sessionInv (files : List FileEntry) :
    ∀ kv ∈ (runFiles files).all_sessions, ∀ u ∈ kv.2,
      pyMem (dlistLookup (runFiles files).high_value_targets
          "Domain Admins / Enterprise Admins" ++
        dlistLookup (runFiles files).high_value_targets "High Value") u = true := by
  unfold runFiles
  exact foldl_processFile_sessionInv _ initState
    (fun kv hkv => absurd hkv (List.not_mem_nil kv))

/-- A file that fails to parse only records its error: the three collections
are untouched. -/
theorem processFile_parse_error (st : RunState) (e : FileEntry) (msg : String)
    (h : e.content = .error msg) :
    processFile st e = { st with errors := st.errors ++ [(e.fname, msg)] } := by
  unfold processFile
  rw [h]

/-- The function `processFile` never reads the running error list: starting from an error
list `E` just prefixes `E` to the errors produced from an empty one. -/
theorem processFile_errors_shift (hv : List (String × List JVal))
    (ss : List (JVal × List JVal)) (dg : List JVal) (E : List (String × String))
    (e : FileEntry) :
    processFile ⟨hv, ss, dg, E⟩ e =
      { processFile ⟨hv, ss, dg, []⟩ e with
        errors := E ++ (processFile ⟨hv, ss, dg, []⟩ e).errors } := by
  obtain ⟨fn, ct⟩ := e
  cases ct with
  | error msg => simp [processFile]
  | ok doc =>
    cases hx : extract_high_value_targets doc with
    | error msg => simp [processFile, hx]
    | ok ex =>
      simp only [processFile, hx]
      split
      · simp
      · split
        · simp
        · split <;> simp

theorem foldl_errors_shift :
    ∀ (fs : List FileEntry) (hv : List (String × List JVal))
      (ss : List (JVal × List JVal)) (dg : List JVal) (E : List (String × String)),
    List.foldl processFile ⟨hv, ss, dg, E⟩ fs =
      { List.foldl processFile ⟨hv, ss, dg, []⟩ fs with
        errors := E ++ (List.foldl processFile ⟨hv, ss, dg, []⟩ fs).errors } := by
  intro fs
  induction fs with
  | nil => intro hv ss dg E; simp
  | cons f fs ih =>
    intro hv ss dg E
    rw [List.foldl_cons, List.foldl_cons, processFile_errors_shift hv ss dg E f]
    rcases hr1 : processFile ⟨hv, ss, dg, []⟩ f with ⟨a, b, c, d⟩
    rw [show ({ RunState.mk a b c d with
        errors := E ++ (RunState.mk a b c d).errors }) =
      RunState.mk a b c (E ++ d) from rfl]
    rw [ih a b c (E ++ d), ih a b c d]
    simp [List.append_assoc]

/-- A corrupt leading file contributes exactly one error entry; the
collections of the whole run are those of the remaining files alone. -/
theorem runFiles_cons_error (c : FileEntry) (fs : List FileEntry) (msg : String)
    (hc : c.content = .error msg) (hj : strEndsWith c.fname ".json" = true) :
    runFiles (c :: fs) =
      { runFiles fs with errors := (c.fname, msg) :: (runFiles fs).errors } := by
  unfold runFiles
  rw [List.filter_cons_of_pos (by simpa using hj)]
  rw [List.foldl_cons, processFile_parse_error initState c msg hc]
  rw [show ({ initState with errors := initState.errors ++ [(c.fname, msg)] }) =
    RunState.mk [] [] [] [(c.fname, msg)] from rfl]
  rw [show (initState : RunState) = RunState.mk [] [] [] [] from rfl]
  rw [foldl_errors_shift (List.filter (fun e => strEndsWith e.fname ".json") fs)
    [] [] [] [(c.fname, msg)]]
  simp

/-!
## The claims
-/

/-- C1 (counterexample): the spec's worked example is incomplete.  Node B of
`exampleDoc` also has `unconstraineddelegation` true, so the run's
HighValueAccounts does not equal the claimed two-category mapping: the code
additionally produces "Unconstrained Delegation" = ["B"]. -/
theorem claim_C1_counterexample :
    (runFiles [⟨"example.json", .ok exampleDoc⟩]).high_value_targets ≠
      [("High Value", [.str "A"]), ("Domain Admins / Enterprise Admins", [.str "B"])] := by
  decide

/-- C1 (amended): processing the spec's example document through the full
per-file pipeline yields HighValueAccounts = \x7b"High Value": ["A"],
"Domain Admins / Enterprise Admins": ["B"], "Unconstrained Delegation":
["B"]\x7d, SessionMap = \x7b"B": \x7b"A"\x7d\x7d (since "A" is privileged
after the merge), DelegationTargets = ["B"], and no errors. -/
theorem claim_C1 :
    runFiles [⟨"example.json", .ok exampleDoc⟩] =
      ⟨[("High Value", [.str "A"]), ("Domain Admins / Enterprise Admins", [.str "B"]),
        ("Unconstrained Delegation", [.str "B"])],
       [(.str "B", [.str "A"])], [.str "B"], []⟩ := by
  decide

/-- C2: (1) every username `extract_sessions` puts into any host's set is a
Python member of the privileged set supplied at that call; (2) in a
multi-file run, every username in the running session map is a member of the
running privileged lists, so — applied to each prefix of the run — a
username that only becomes privileged after a later file's merge never
appears in the session results already produced from earlier files; (3) a
concrete demonstration of the ordering: a session-bearing file followed by
the file that makes its user high-value reports no sessions, while the
reverse order reports the session. -/
theorem claim_C2 :
    (∀ (doc : JVal) (priv : List JVal) (m : List (JVal × List JVal)),
      extract_sessions doc priv = .ok m →
      ∀ kv ∈ m, ∀ u ∈ kv.2, pyMem priv u = true)
    ∧ (∀ files : List FileEntry,
      ∀ kv ∈ (runFiles files).all_sessions, ∀ u ∈ kv.2,
        pyMem (dlistLookup (runFiles files).high_value_targets
            "Domain Admins / Enterprise Admins" ++
          dlistLookup (runFiles files).high_value_targets "High Value") u = true)
    ∧ (runFiles [⟨"f1.json", .ok docSessionOnly⟩,
        ⟨"f2.json", .ok docHighValueA⟩]).all_sessions = []
    ∧ (runFiles [⟨"f2.json", .ok docHighValueA⟩,
        ⟨"f1.json", .ok docSessionOnly⟩]).all_sessions =
      [(.str "H", [.str "A"])] := by
  refine ⟨extract_sessions_mem_priv, runFiles_sessionInv, ?_, ?_⟩
  · decide
  · decide

/-- C3 (counterexample): `admincount` is compared with Python `==`, under
which `True == 1`; a node whose `admincount` is the boolean `true` — not the
integer 1 — is appended to "Domain Admins / Enterprise Admins". -/
theorem claim_C3_counterexample :
    extract_high_value_targets docAdmincountTrue =
      .ok [("Domain Admins / Enterprise Admins", [.str "T"])]
    ∧ objLookup [("name", .str "T"), ("admincount", .bool true)] "admincount" =
      some (.bool true)
    ∧ JVal.bool true ≠ JVal.int 1 := by
  decide

/-- C3 (amended): for every well-formed document, the "Domain Admins /
Enterprise Admins" list is exactly the display names, in node order, of the
nodes whose properties contain an `admincount` key whose value compares
equal to 1 under Python's `==`, i.e. is the integer 1 or the boolean true
(`admincountHit`); a node with `admincount` 0, false, or absent is not
appended. -/
theorem claim_C3 :
    ∀ ns : List (List (String × JVal) × List (String × JVal)),
    ∃ m, extract_high_value_targets (mkDoc ns) = .ok m ∧
      dlistLookup m "Domain Admins / Enterprise Admins" =
        ((ns.map Prod.fst).filter admincountHit).map displayName := by
  intro ns
  refine ⟨_, extract_hv_mkDoc ns, ?_⟩
  rw [hvRun_lookup_DA ns []]
  rfl

/-- C4: (1) for every well-formed document, the "High Value" list is exactly
the display names, in node order, of the nodes whose `highvalue` flag is
truthy — so every node whose `highvalue` is `true` contributes its name
exactly once per occurrence; (2) across a directory run the final
"High Value" list is the concatenation of the per-file contributions in file
order: occurrences from different documents are all preserved, nothing is
deduplicated. -/
theorem claim_C4 :
    (∀ ns : List (List (String × JVal) × List (String × JVal)),
      ∃ m, extract_high_value_targets (mkDoc ns) = .ok m ∧
        dlistLookup m "High Value" =
          ((ns.map Prod.fst).filter
            (fun p => truthy (flagValue p "highvalue"))).map displayName)
    ∧ (∀ files : List FileEntry,
      dlistLookup (runFiles files).high_value_targets "High Value" =
        ((files.filter fun e => strEndsWith e.fname ".json").map
          fileHVContribution).flatten) := by
  constructor
  · intro ns
    refine ⟨_, extract_hv_mkDoc ns, ?_⟩
    rw [hvRun_lookup_HV ns []]
    rfl
  · exact runFiles_lookup_HV

/-- C5 (counterexample): a session whose user name is absent is read as the
empty string and is NOT ignored when the supplied privileged set contains
the empty string: the host's resulting user set then contains "". -/
theorem claim_C5_counterexample :
    extract_sessions docEmptyUser [.str ""] = .ok [(.str "H", [.str ""])] := by
  decide

/-- C5 (amended): a session whose username (the empty string when absent) is
not a Python member of the supplied privileged set is ignored; in
particular, whenever the empty string is not in the supplied set, no host's
resulting user set contains the empty string.  Concretely, the empty-user
document reports nothing against the set \x7b"x"\x7d. -/
theorem claim_C5 :
    (∀ (doc : JVal) (priv : List JVal) (m : List (JVal × List JVal)),
      extract_sessions doc priv = .ok m → pyMem priv (JVal.str "") = false →
      ∀ kv ∈ m, JVal.str "" ∉ kv.2)
    ∧ extract_sessions docEmptyUser [.str "x"] = .ok [] := by
  constructor
  · intro doc priv m h hempty kv hkv hmem
    exact extract_sessions_prop (fun u => u ≠ JVal.str "") doc priv m
      (fun u _ hm he => by rw [he] at hm; rw [hm] at hempty; cases hempty)
      h kv hkv (JVal.str "") hmem rfl
  · decide

/-- C6: SessionMap values are per-host sets of distinct usernames: (1) in
every successful extraction, no host's user list contains two Python-equal
entries (adding an already-present username is a no-op); (2) concretely,
a document carrying the same privileged user's session twice under one host
yields a set of size 1 for that host. -/
theorem claim_C6 :
    (∀ (doc : JVal) (priv : List JVal) (m : List (JVal × List JVal)),
      extract_sessions doc priv = .ok m →
      ∀ kv ∈ m, List.Pairwise (fun a b => pyEq a b = false) kv.2)
    ∧ extract_sessions docDoubleSession [.str "alice"] =
      .ok [(.str "H1", [.str "alice"])]
    ∧ (dsetLookup [((.str "H1" : JVal), [(.str "alice" : JVal)])] (.str "H1")).length
      = 1 := by
  refine ⟨extract_sessions_pairwise, ?_, ?_⟩
  · decide
  · decide

/-- C7: for every well-formed document,
`extract_unconstrained_delegation_principals` returns exactly the display
names of the nodes whose `unconstraineddelegation` flag is truthy, in
document node order, keeping duplicates; the function takes no privilege
information at all, so the result never depends on any privileged set. -/
theorem claim_C7 :
    ∀ ns : List (List (String × JVal) × List (String × JVal)),
    extract_unconstrained_delegation_principals (mkDoc ns) =
      .ok (((ns.map Prod.fst).filter
        (fun p => truthy (flagValue p "unconstraineddelegation"))).map displayName) :=
  extract_ud_mkDoc

/-- C8 (counterexample): per-file atomicity fails for extraction errors.  In
`docSessionsInt` the only node is high-value but its `sessions` entry is the
integer 5: high-value extraction succeeds and is merged, then session
extraction raises `TypeError`; the file is reported as failed, yet the
running collections were changed by it ("X" stays in "High Value", and the
defaultdict accesses created an empty "Domain Admins / Enterprise Admins"
entry). -/
theorem claim_C8_counterexample :
    runFiles [⟨"bad.json", .ok docSessionsInt⟩] =
      ⟨[("High Value", [.str "X"]), ("Domain Admins / Enterprise Admins", [])],
       [], [], [("bad.json", "TypeError: object is not iterable")]⟩
    ∧ ([("High Value", [JVal.str "X"]),
        ("Domain Admins / Enterprise Admins", ([] : List JVal))] ≠
       ([] : List (String × List JVal))) := by
  decide

/-- C8 (amended): a parse or extraction failure on one file is caught and
does not abort the batch.  (1) A file that fails to PARSE leaves the running
collections unchanged and only appends its (filename, message) error entry;
(2) hence a directory with one non-parseable file and valid files produces
exactly the valid files' collections plus the corrupt file's error entry.
(A failure in a LATER extraction step, however, can leave the earlier
high-value merge of that file in place — there is no full per-file
atomicity; see the counterexample.) -/
theorem claim_C8 :
    (∀ (st : RunState) (e : FileEntry) (msg : String), e.content = .error msg →
      processFile st e = { st with errors := st.errors ++ [(e.fname, msg)] })
    ∧ (∀ (c : FileEntry) (fs : List FileEntry) (msg : String),
      c.content = .error msg → strEndsWith c.fname ".json" = true →
      runFiles (c :: fs) =
        { runFiles fs with errors := (c.fname, msg) :: (runFiles fs).errors }) :=
  ⟨processFile_parse_error, runFiles_cons_error⟩

/-- C9: when the supplied root path is not a directory, `main` reports
the invalid directory and returns before any file processing: the outcome is
`invalidDirectory` whatever the directory listing holds, and is never a
report; and this is the only fatal path — with a valid directory `main`
always produces the report of the accumulated collections. -/
theorem claim_C9 :
    (∀ files : List FileEntry, quickmapper.main false files = .invalidDirectory)
    ∧ (∀ (files : List FileEntry) (hv : List (String × List JVal))
        (ss : List (JVal × List JVal)) (dg : List JVal) (er : List (String × String)),
        quickmapper.main false files ≠ .report hv ss dg er)
    ∧ (∀ files : List FileEntry, quickmapper.main true files =
        .report (runFiles files).high_value_targets (runFiles files).all_sessions
          (runFiles files).unconstrained_delegation_targets (runFiles files).errors) :=
  ⟨fun _ => rfl, fun _ _ _ _ _ h => MainResult.noConfusion h, fun _ => rfl⟩

/-- C10: the flag predicates test Python truthiness, not equality with
`True`: a node whose four flags hold the string "false" and the integer 2
(both truthy, neither boolean) is appended to "High Value", "Kerberoastable
Accounts", "Unconstrained Delegation" and "Allowed to Delegate", and is
returned by `extract_unconstrained_delegation_principals`. -/
theorem claim_C10 :
    extract_high_value_targets docTruthyFlags = .ok
      [("High Value", [.str "N"]), ("Kerberoastable Accounts", [.str "N"]),
       ("Unconstrained Delegation", [.str "N"]), ("Allowed to Delegate", [.str "N"])]
    ∧ extract_unconstrained_delegation_principals docTruthyFlags = .ok [.str "N"]
    ∧ truthy (JVal.str "false") = true
    ∧ truthy (JVal.int 2) = true := by
  decide
